import Mathlib

/-!
Shallow embedding of the audio-transcription frontend's job/group state
management and export utilities (React/TypeScript single-page application).

Sources embedded:
* `src/at-frontend-bolt/src/hooks/useTranscriptionGroups.ts` — group registry
* `src/at-frontend-bolt/src/hooks/useTranscription.ts` — job registry
* `src/at-frontend-bolt/src/services/transcriptionService.ts` — mock provider
* `src/at-frontend-bolt/src/hooks/useAudioFile.ts` — audio-file ingestion
* `src/at-frontend-bolt/src/utils/fileUtils.ts` — export/formatting utilities
* `src/at-frontend-bolt/src/components/GroupCreationModal.tsx` — UI trim guard

Environment-dependent values (wall-clock dates, `Math.random` identifier
suffixes, browser object URLs) are passed in as explicit parameters or
modelled by a fresh-counter supply, as noted at each definition.
-/

namespace AT

/-- A raw browser `File` as seen at the file-selection boundary: display
name, declared media type, byte size. -/
structure RawFile where
  name : String
  type : String
  size : Nat
  deriving Repr, DecidableEq

/-- `AudioFile` record (src/at-frontend-bolt/src/types, produced by
`useAudioFile.processFiles`).  The source identifier is the string
`audio_${Date.now()}_${Math.random()...}`; the generative freshness of that
scheme is modelled by a monotone counter supply, so `id` is the counter
value.  `duration` is the derived playable duration in seconds (the float is
modelled as a `Nat`; only presence/absence matters to the claims). -/
structure AudioFile where
  file : RawFile
  id : Nat
  name : String
  size : Nat
  duration : Option Nat
  url : Option String
  deriving Repr, DecidableEq

/-- Job status (src type union `'pending' | 'processing' | 'completed' | 'error'`). -/
inductive JobStatus where
  | pending
  | processing
  | completed
  | error
  deriving Repr, DecidableEq

/-- `TranscriptionJob` record.  Optional TypeScript fields become `Option`;
`createdAt`/`completedAt` `Date` values are modelled as `Nat` timestamps. -/
structure TranscriptionJob where
  id : String
  audioFile : AudioFile
  status : JobStatus
  progress : Nat
  transcript : Option String
  error : Option String
  createdAt : Nat
  completedAt : Option Nat
  groupId : Option String
  deriving Repr, DecidableEq

/-- `TranscriptionGroup` record (group registry entry). -/
structure TranscriptionGroup where
  id : String
  name : String
  description : Option String
  createdAt : Nat
  color : String
  jobIds : List String
  deriving Repr, DecidableEq

/-- The fixed eight-color palette `GROUP_COLORS`
(useTranscriptionGroups.ts lines 4-13). -/
def GROUP_COLORS : List String :=
  ["#3B82F6", "#10B981", "#F59E0B", "#EF4444",
   "#8B5CF6", "#06B6D4", "#F97316", "#84CC16"]

/-- `createGroup(name, description?)` (useTranscriptionGroups.ts lines 18-30).
The generated id `group_${Date.now()}_${...}` and the `Date.now()` creation
time are environment inputs, passed as `newId` and `now`.  Returns the new
group and the updated registry (`setGroups(prev => [...prev, newGroup])`).
Note: the source performs no validation of `name`. -/
def createGroup (name : String) (description : Option String) (newId : String)
    (now : Nat) (groups : List TranscriptionGroup) :
    TranscriptionGroup × List TranscriptionGroup :=
  let newGroup : TranscriptionGroup :=
    { id := newId
      name := name
      description := description
      createdAt := now
      color := GROUP_COLORS.getD (groups.length % GROUP_COLORS.length) ""
      jobIds := [] }
  (newGroup, groups ++ [newGroup])

/-- `updateGroup(groupId, updates)` (useTranscriptionGroups.ts lines 32-36):
merge the provided partial fields into the matching record.  The
`Partial<TranscriptionGroup>` update is modelled as a record-to-record
merge function applied to the matching group. -/
def updateGroup (groupId : String) (updates : TranscriptionGroup → TranscriptionGroup)
    (groups : List TranscriptionGroup) : List TranscriptionGroup :=
  groups.map (fun group => if group.id = groupId then updates group else group)

/-- `deleteGroup(groupId)` (useTranscriptionGroups.ts lines 38-40):
`prev.filter(group => group.id !== groupId)`. -/
def deleteGroup (groupId : String) (groups : List TranscriptionGroup) :
    List TranscriptionGroup :=
  groups.filter (fun group => group.id ≠ groupId)

/-- `addJobToGroup(groupId, jobId)` (useTranscriptionGroups.ts lines 42-48):
the target group gets `[...group.jobIds.filter(id => id !== jobId), jobId]`,
every other group gets `group.jobIds.filter(id => id !== jobId)`. -/
def addJobToGroup (groupId jobId : String) (groups : List TranscriptionGroup) :
    List TranscriptionGroup :=
  groups.map (fun group =>
    if group.id = groupId then
      { group with jobIds := group.jobIds.filter (fun id => id ≠ jobId) ++ [jobId] }
    else
      { group with jobIds := group.jobIds.filter (fun id => id ≠ jobId) })

/-- `removeJobFromGroup(jobId)` (useTranscriptionGroups.ts lines 50-55):
strip `jobId` from every group's membership. -/
def removeJobFromGroup (jobId : String) (groups : List TranscriptionGroup) :
    List TranscriptionGroup :=
  groups.map (fun group =>
    { group with jobIds := group.jobIds.filter (fun id => id ≠ jobId) })

/-- The combined application state visible to `App.tsx`: the job registry
(from `useTranscription`) and the group registry (from
`useTranscriptionGroups`). -/
structure AppState where
  jobs : List TranscriptionJob
  groups : List TranscriptionGroup
  deriving Repr, DecidableEq

/-- `App.tsx` passes `onDeleteGroup={deleteGroup}` straight through: deleting
a group runs only the group-registry filter; the job registry is untouched. -/
def deleteGroupApp (groupId : String) (st : AppState) : AppState :=
  { st with groups := deleteGroup groupId st.groups }

/-- JavaScript `String.prototype.trim()`: strip leading and trailing
whitespace, modelled over the character list (structurally recursive so that
concrete instances evaluate). -/
def jsTrim (s : String) : String :=
  String.mk
    (((s.data.dropWhile Char.isWhitespace).reverse.dropWhile
        Char.isWhitespace).reverse)

/-- `GroupCreationModal.handleCreate` (src/unnamed/part_002): the UI guard
around group creation.  Creation runs only when `groupName.trim()` is truthy
(non-empty); otherwise nothing happens (`none`).  The description falls back
to `undefined` when it trims to empty (`groupDescription.trim() || undefined`). -/
def handleCreate (groupName groupDescription : String) (newId : String) (now : Nat)
    (groups : List TranscriptionGroup) :
    Option (TranscriptionGroup × List TranscriptionGroup) :=
  if jsTrim groupName ≠ "" then
    some (createGroup (jsTrim groupName)
      (if jsTrim groupDescription = "" then none else some (jsTrim groupDescription))
      newId now groups)
  else none

/-- Iterated group creation: fold `createGroup` over a list of
`(name, newId)` requests, keeping the updated registry each time.  This is
the "creation order" of the palette-cycling property. -/
def createGroups (reqs : List (String × String)) (now : Nat)
    (groups : List TranscriptionGroup) : List TranscriptionGroup :=
  reqs.foldl (fun gs r => (createGroup r.1 none r.2 now gs).2) groups

/-- Default group record used with `List.getD` in indexed statements. -/
def dummyGroup : TranscriptionGroup :=
  { id := "", name := "", description := none, createdAt := 0, color := "",
    jobIds := [] }

/-- A concrete audio file used in witness instances. -/
def sampleAudioFile : AudioFile :=
  { file := { name := "a.mp3", type := "audio/mpeg", size := 10 },
    id := 0, name := "a.mp3", size := 10, duration := none, url := none }

/-- Recognized declared media types (fileUtils.ts `isAudioFile`, lines 34-45). -/
def audioTypes : List String :=
  ["audio/mpeg", "audio/mp3", "audio/wav", "audio/m4a",
   "audio/aac", "audio/flac", "audio/ogg"]

/-- The extension test `/\.(mp3|wav|m4a|aac|flac|ogg)$/i`: the name ends,
case-insensitively, with a dot and one of the allowed extensions. -/
def hasAudioExt (name : String) : Bool :=
  [".mp3", ".wav", ".m4a", ".aac", ".flac", ".ogg"].any
    (fun ext => name.toLower.endsWith ext)

/-- `isAudioFile(file)` (fileUtils.ts lines 34-45): declared type in the
allow-list, or an allowed file extension. -/
def isAudioFile (f : RawFile) : Bool :=
  audioTypes.contains f.type || hasAudioExt f.name

/-- `useAudioFile.processFiles` (src/unnamed/part_004 lines 9-45).  Browser
effects are explicit parameters: `getDur f` models the `getAudioDuration`
promise (`some d` on success, `none` on rejection, which the source catches
and then pushes the record without a duration), `mkUrl` models
`URL.createObjectURL`, and the fresh identifier
`audio_${Date.now()}_${Math.random()...}` is modelled by the counter `ctr`
(a fresh-name supply).  Returns the accepted records in order together with
the next counter value. -/
def processFiles (getDur : RawFile → Option Nat) (mkUrl : RawFile → String) :
    List RawFile → Nat → List AudioFile × Nat
  | [], ctr => ([], ctr)
  | f :: rest, ctr =>
    if isAudioFile f then
      let af : AudioFile :=
        match getDur f with
        | some d =>
          { file := f, id := ctr, name := f.name, size := f.size,
            duration := some d, url := some (mkUrl f) }
        | none =>
          { file := f, id := ctr, name := f.name, size := f.size,
            duration := none, url := some (mkUrl f) }
      let r := processFiles getDur mkUrl rest (ctr + 1)
      (af :: r.1, r.2)
    else processFiles getDur mkUrl rest ctr

/-- The job record built by `startTranscription` (useTranscription.ts lines
11-22): status `pending`, progress 0, group label from the options.  The
generated id and `Date.now()` creation time are environment inputs. -/
def mkJob (newId : String) (audioFile : AudioFile) (now : Nat)
    (groupId : Option String) : TranscriptionJob :=
  { id := newId, audioFile := audioFile, status := .pending, progress := 0,
    transcript := none, error := none, createdAt := now, completedAt := none,
    groupId := groupId }

/-- `TranscriptionService.startTranscription` stores
`{ ...job, status: 'processing', progress: 0 }` (transcriptionService.ts). -/
def serviceStart (job : TranscriptionJob) : TranscriptionJob :=
  { job with status := .processing, progress := 0 }

/-- `generateMockTranscript(filename)` (transcriptionService.ts): the
synthetic transcript embedding the audio filename. -/
def generateMockTranscript (filename : String) : String :=
  "This is a sample transcription for the audio file \"" ++ filename
    ++ "\".\n\nIn a real implementation, this would be replaced with actual transcription results from services like:\n\n• OpenAI Whisper API\n• Google Speech-to-Text\n• Azure Cognitive Services Speech\n• AWS Transcribe\n\nThe transcription would include the actual spoken content from your audio file, with proper punctuation, paragraph breaks, and formatting.\n\nFor production use, you would:\n1. Upload the audio file to the chosen transcription service\n2. Poll for completion status\n3. Retrieve the completed transcript\n4. Format and present it to the user\n\nThis sample transcript demonstrates how the final result would appear in the interface, ready for editing and export to your iCloud Drive for access on your iPhone."

/-- The completion write of `simulateTranscription`: status `completed`,
progress 100, the synthetic transcript, and a completion timestamp `t`
(`completedAt: new Date()`). -/
def serviceComplete (job : TranscriptionJob) (t : Nat) : TranscriptionJob :=
  { job with
      status := .completed
      progress := 100
      transcript := some (generateMockTranscript job.audioFile.name)
      completedAt := some t }

/-- The full sequence of records `simulateTranscription` writes to the
provider map for a job: the progress loop writes progress 0, 10, …, 100 with
status still `processing`, then the completion record.  `t` is the
completion wall-clock time. -/
def serviceTrace (job : TranscriptionJob) (t : Nat) : List TranscriptionJob :=
  ((List.range 11).map (fun k => { serviceStart job with progress := 10 * k }))
    ++ [serviceComplete (serviceStart job) t]

/-- The catch branch of `startTranscription` (useTranscription.ts lines
43-50): the original job object with status `error` and a message derived
from the failure. -/
def failJob (job : TranscriptionJob) (msg : String) : TranscriptionJob :=
  { job with status := .error, error := some msg }

/-- `updateTranscript(jobId, transcript)` on the registry list
(useTranscription.ts lines 54-58): unconditional overwrite of the matching
record's transcript, in any status. -/
def updateTranscriptReg (jobId transcript : String)
    (jobs : List TranscriptionJob) : List TranscriptionJob :=
  jobs.map (fun job =>
    if job.id = jobId then { job with transcript := some transcript } else job)

/-- `updateJobGroup(jobId, groupId)` on the registry list
(useTranscription.ts lines 64-68). -/
def updateJobGroupReg (jobId : String) (groupId : Option String)
    (jobs : List TranscriptionJob) : List TranscriptionJob :=
  jobs.map (fun job =>
    if job.id = jobId then { job with groupId := groupId } else job)

/-- `removeJob(jobId)` (useTranscription.ts lines 60-62). -/
def removeJob (jobId : String) (jobs : List TranscriptionJob) :
    List TranscriptionJob :=
  jobs.filter (fun job => job.id ≠ jobId)

/-- All values a single job's registry record can take over the job's life:
the freshly created pending record, any provider record copied in by the
polling loop, the catch-branch error record, and the results of
`updateTranscript` / `updateJobGroup` edits applied to any of those. -/
inductive JobReach (base : TranscriptionJob) : TranscriptionJob → Prop
  | created : JobReach base base
  | polled (j : TranscriptionJob) (t : Nat) :
      j ∈ serviceTrace base t → JobReach base j
  | failed (msg : String) : JobReach base (failJob base msg)
  | edited (j : TranscriptionJob) (text : String) :
      JobReach base j → JobReach base { j with transcript := some text }
  | regrouped (j : TranscriptionJob) (gid : Option String) :
      JobReach base j → JobReach base { j with groupId := gid }

/-- `formatFileSize(bytes)` (fileUtils.ts lines 3-9).  The source computes
`parseFloat((bytes / 1024^i).toFixed(2))` on floats; the unit index
`i = ⌊log_1024 bytes⌋` is exact, and the decimal rendering of the quotient
is modelled by integer division (no claim depends on the rendered digits). -/
def formatFileSize (bytes : Nat) : String :=
  if bytes = 0 then "0 Bytes"
  else
    let sizes := ["Bytes", "KB", "MB", "GB"]
    let i := Nat.log 1024 bytes
    toString (bytes / 1024 ^ i) ++ " " ++ sizes.getD i ""

/-- `formatDuration(seconds)` (fileUtils.ts lines 11-15):
`⌊s/60⌋:⌊s%60⌋` with the seconds zero-padded to two digits. -/
def formatDuration (seconds : Nat) : String :=
  let mins := seconds / 60
  let secs := seconds % 60
  toString mins ++ ":" ++ (if secs < 10 then "0" ++ toString secs else toString secs)

/-- The regex replace `audioFilename.replace(/\.[^/.]+$/, '')`: strip a
final `.ext` segment exactly when the part after the last dot is non-empty
and contains neither `/` nor a further dot. -/
def stripLastExt (name : String) : String :=
  let parts := name.splitOn "."
  let lastPart := parts.getLastD ""
  if parts.length ≥ 2 ∧ lastPart ≠ "" ∧ ¬ lastPart.contains '/' then
    String.intercalate "." parts.dropLast
  else name

/-- `generateTranscriptFilename(audioFilename)` (fileUtils.ts lines 47-51).
The embedded wall-clock timestamp string is an environment input. -/
def generateTranscriptFilename (audioFilename timestamp : String) : String :=
  stripLastExt audioFilename ++ "_transcript_" ++ timestamp ++ ".txt"

/-- One browser download produced by `downloadTextFile(content, filename)`
(fileUtils.ts lines 53-63): the observable effect is the
(filename, content) payload handed to the save-as boundary. -/
structure Payload where
  filename : String
  content : String
  deriving Repr, DecidableEq

/-- `downloadTextFile(content, filename)` as a payload producer. -/
def downloadTextFile (content filename : String) : Payload :=
  { filename := filename, content := content }

/-- `BatchExportOptions`; `format` is the `'txt' | 'zip'` string union
modelled as its string value. -/
structure BatchExportOptions where
  format : String
  includeMetadata : Bool
  separateFiles : Bool
  groupName : Option String
  deriving Repr, DecidableEq

/-- `options.groupName || 'transcripts'` — JavaScript `||` falls back both
on `undefined` and on the empty string. -/
def effectiveGroupName (o : Option String) : String :=
  match o with
  | some s => if s = "" then "transcripts" else s
  | none => "transcripts"

/-- The metadata header block of `downloadCombinedTranscripts` (built when
`includeMetadata`); `dateStr` models `new Date().toLocaleString()` and
`total` is the `jobs.length` the source interpolates. -/
def combinedHeader (groupName dateStr : String) (total : Nat) : String :=
  "# " ++ groupName ++ " - Batch Transcripts\n"
    ++ "Generated: " ++ dateStr ++ "\n"
    ++ "Total Files: " ++ toString total ++ "\n\n"
    ++ "---\n\n"

/-- The text appended by `downloadCombinedTranscripts` for the `index`-th
job — only produced when the job has a transcript.  The
`completedAt?.toLocaleString()` interpolation renders the timestamp, or the
string `undefined` when no completion time is set. -/
def combinedEntry (options : BatchExportOptions) (index : Nat)
    (job : TranscriptionJob) (transcript : String) : String :=
  "## " ++ toString (index + 1) ++ ". " ++ job.audioFile.name ++ "\n\n"
    ++ (if options.includeMetadata then
          "**File Size:** " ++ formatFileSize job.audioFile.size ++ "\n"
            ++ (match job.audioFile.duration with
                | some d => "**Duration:** " ++ formatDuration d ++ "\n"
                | none => "")
            ++ "**Transcribed:** "
            ++ (match job.completedAt with
                | some t => toString t
                | none => "undefined")
            ++ "\n\n"
        else "")
    ++ transcript ++ "\n\n---\n\n"

/-- The ordered list of entry strings the `jobs.forEach` loop of
`downloadCombinedTranscripts` appends: the index ranges over the full
enumeration, entries without a transcript are skipped. -/
def combinedEntries (jobs : List TranscriptionJob)
    (options : BatchExportOptions) : List String :=
  jobs.enum.filterMap (fun p =>
    match p.2.transcript with
    | some t => some (combinedEntry options p.1 p.2 t)
    | none => none)

/-- `downloadCombinedTranscripts(jobs, options, timestamp, groupName)`
(fileUtils.ts lines 91-125): one payload whose content is the optional
metadata header followed by the surviving entries, named
`<groupName>_batch_transcripts_<timestamp>.<format>`. -/
def downloadCombinedTranscripts (jobs : List TranscriptionJob)
    (options : BatchExportOptions) (timestamp groupName dateStr : String) :
    Payload :=
  let content :=
    (if options.includeMetadata then
      combinedHeader groupName dateStr jobs.length
    else "")
      ++ String.join (combinedEntries jobs options)
  downloadTextFile content
    (groupName ++ "_batch_transcripts_" ++ timestamp ++ "." ++ options.format)

/-- `downloadBatchTranscripts(jobs, options)` (fileUtils.ts lines 65-89),
returning the list of produced payloads in order.  `timestamp` models the
ISO timestamp computed at entry, `dateStr` the `toLocaleString()` used in
the metadata header.  Note the dispatch order of the source: an empty list
returns immediately; the `zip` format takes precedence over
`separateFiles` and degrades to a single combined payload. -/
def downloadBatchTranscripts (jobs : List TranscriptionJob)
    (options : BatchExportOptions) (timestamp dateStr : String) :
    List Payload :=
  if jobs.length = 0 then []
  else
    let groupName := effectiveGroupName options.groupName
    if options.format = "zip" then
      [downloadCombinedTranscripts jobs options timestamp groupName dateStr]
    else if options.separateFiles then
      jobs.enum.filterMap (fun p =>
        match p.2.transcript with
        | some t => some (downloadTextFile t
            (groupName ++ "_" ++ toString (p.1 + 1) ++ "_"
              ++ generateTranscriptFilename p.2.audioFile.name timestamp))
        | none => none)
    else
      [downloadCombinedTranscripts jobs options timestamp groupName dateStr]

/-- A concrete completed job with a transcript, for witness instances. -/
def sampleJobDone : TranscriptionJob :=
  { id := "j1", audioFile := sampleAudioFile, status := .completed,
    progress := 100, transcript := some "x", error := none, createdAt := 0,
    completedAt := some 5, groupId := none }

/-- A second concrete completed job with a transcript. -/
def sampleJobDone2 : TranscriptionJob :=
  { id := "j2", audioFile := sampleAudioFile, status := .completed,
    progress := 100, transcript := some "y", error := none, createdAt := 0,
    completedAt := some 6, groupId := none }

/-- A concrete job without a transcript. -/
def sampleJobPending : TranscriptionJob :=
  { id := "j3", audioFile := sampleAudioFile, status := .pending,
    progress := 0, transcript := none, error := none, createdAt := 0,
    completedAt := none, groupId := none }

/-- Helper: `jobId` is not a member of `l.filter (· ≠ jobId)`. -/
theorem not_mem_filter_ne_self (jobId : String) (l : List String) :
    jobId ∉ l.filter (fun id => id ≠ jobId) := by
  intro h
  have := List.of_mem_filter h
  simp at this

/-- Helper: counting `jobId` in a list that first strips `jobId` and then
appends it once yields exactly one occurrence. -/
theorem count_strip_append_self (jobId : String) (l : List String) :
    (l.filter (fun id => id ≠ jobId) ++ [jobId]).count jobId = 1 := by
  rw [List.count_append,
    List.count_eq_zero.mpr (not_mem_filter_ne_self jobId l)]
  simp

/-- Helper: stripping `jobId` and re-appending it preserves `Nodup`. -/
theorem nodup_strip_append_self (jobId : String) (l : List String)
    (h : l.Nodup) : (l.filter (fun id => id ≠ jobId) ++ [jobId]).Nodup := by
  rw [List.nodup_append]
  exact ⟨h.filter _, List.nodup_singleton jobId,
    by simp [List.Disjoint]⟩

/-- C1: after `addJobToGroup(g, j)` where `g` is the id of an existing group
(group ids being unique per the data model, memberships duplicate-free), the
job `j` occurs exactly once across all membership lists (namely in group
`g`), occurs in no group other than `g`, and every membership list is still
duplicate-free. -/
theorem addJobToGroup_membership (g jobId : String) (groups : List TranscriptionGroup)
    (hid : (groups.map (fun gr => gr.id)).Nodup)
    (hnd : ∀ gr ∈ groups, gr.jobIds.Nodup)
    (hex : ∃ gr ∈ groups, gr.id = g) :
    ((addJobToGroup g jobId groups).map (fun gr => gr.jobIds.count jobId)).sum = 1
    ∧ (∀ gr ∈ addJobToGroup g jobId groups, gr.id ≠ g → jobId ∉ gr.jobIds)
    ∧ (∀ gr ∈ addJobToGroup g jobId groups, gr.jobIds.Nodup) := by
  refine ⟨?_, ?_, ?_⟩
  · induction groups with
    | nil => simp at hex
    | cons hd tl ih =>
      simp only [addJobToGroup, List.map_cons, List.map_map, List.sum_cons] at *
      by_cases hhd : hd.id = g
      · rw [if_pos hhd]
        have htl0 : ∀ gr ∈ tl, gr.id ≠ g := by
          intro gr hgr heq
          have : hd.id ∈ tl.map (fun gr => gr.id) :=
            List.mem_map.mpr ⟨gr, hgr, by rw [heq, hhd]⟩
          exact (List.nodup_cons.mp hid).1 this
        have hz : ∀ x ∈ tl.map ((fun gr => gr.jobIds.count jobId) ∘ (fun group =>
            if group.id = g then
              { group with jobIds := group.jobIds.filter (fun id => id ≠ jobId) ++ [jobId] }
            else
              { group with jobIds := group.jobIds.filter (fun id => id ≠ jobId) })), x = 0 := by
          intro x hx
          obtain ⟨gr, hgr, hx⟩ := List.mem_map.mp hx
          simp only [Function.comp, if_neg (htl0 gr hgr)] at hx
          rw [← hx]
          exact List.count_eq_zero.mpr (not_mem_filter_ne_self jobId gr.jobIds)
        rw [List.sum_eq_zero hz]
        simpa using count_strip_append_self jobId hd.jobIds
      · rw [if_neg hhd]
        have hex' : ∃ gr ∈ tl, gr.id = g := by
          obtain ⟨gr, hgr, hgrid⟩ := hex
          rw [List.mem_cons] at hgr
          rcases hgr with h | h
          · exact absurd (h ▸ hgrid) hhd
          · exact ⟨gr, h, hgrid⟩
        have := ih (List.nodup_cons.mp hid).2 (fun gr hgr => hnd gr (.tail _ hgr)) hex'
        rw [List.count_eq_zero.mpr (not_mem_filter_ne_self jobId hd.jobIds)]
        simpa using this
  · intro gr hgr hne
    obtain ⟨gr0, hgr0, heq⟩ := List.mem_map.mp hgr
    by_cases h0 : gr0.id = g
    · rw [← heq] at hne; simp [h0] at hne
    · rw [← heq]
      simp only [if_neg h0]
      exact not_mem_filter_ne_self jobId gr0.jobIds
  · intro gr hgr
    obtain ⟨gr0, hgr0, heq⟩ := List.mem_map.mp hgr
    by_cases h0 : gr0.id = g
    · rw [← heq]; simp only [if_pos h0]
      exact nodup_strip_append_self jobId gr0.jobIds (hnd gr0 hgr0)
    · rw [← heq]; simp only [if_neg h0]
      exact (hnd gr0 hgr0).filter _

/-- C1 witness: a concrete two-group registry. -/
theorem addJobToGroup_membership_witness :
    (((addJobToGroup "g1" "j"
        [{ id := "g1", name := "A", description := none, createdAt := 0,
           color := "#3B82F6", jobIds := ["j0"] },
         { id := "g2", name := "B", description := none, createdAt := 0,
           color := "#10B981", jobIds := ["j"] }]).map
        (fun gr => gr.jobIds.count "j")).sum = 1)
    ∧ (∀ gr ∈ addJobToGroup "g1" "j"
        [{ id := "g1", name := "A", description := none, createdAt := 0,
           color := "#3B82F6", jobIds := ["j0"] },
         { id := "g2", name := "B", description := none, createdAt := 0,
           color := "#10B981", jobIds := ["j"] }], gr.id ≠ "g1" → "j" ∉ gr.jobIds)
    ∧ (∀ gr ∈ addJobToGroup "g1" "j"
        [{ id := "g1", name := "A", description := none, createdAt := 0,
           color := "#3B82F6", jobIds := ["j0"] },
         { id := "g2", name := "B", description := none, createdAt := 0,
           color := "#10B981", jobIds := ["j"] }], gr.jobIds.Nodup) :=
  addJobToGroup_membership "g1" "j" _ (by decide) (by decide)
    ⟨_, List.mem_cons_self _ _, rfl⟩

/-- C6: `removeJobFromGroup(j)` is idempotent on the group registry. -/
theorem removeJobFromGroup_idempotent (jobId : String) (groups : List TranscriptionGroup) :
    removeJobFromGroup jobId (removeJobFromGroup jobId groups)
      = removeJobFromGroup jobId groups := by
  simp only [removeJobFromGroup, List.map_map]
  apply List.map_congr_left
  intro gr _
  simp [List.filter_filter]

/-- C7: deleting a group removes exactly the records whose id matches; the
job registry is untouched, and every other group record survives unchanged. -/
theorem deleteGroup_frame (groupId : String) (st : AppState) :
    (deleteGroupApp groupId st).jobs = st.jobs
    ∧ (deleteGroupApp groupId st).groups = st.groups.filter (fun g => g.id ≠ groupId)
    ∧ (∀ g ∈ st.groups, g.id ≠ groupId → g ∈ (deleteGroupApp groupId st).groups) := by
  refine ⟨rfl, rfl, ?_⟩
  intro g hg hne
  exact List.mem_filter.mpr ⟨hg, by simpa using hne⟩

/-- C7 witness: a concrete state with one job and two groups. -/
theorem deleteGroup_frame_witness :
    (deleteGroupApp "g1"
      { jobs := [{ id := "j1",
                   audioFile := sampleAudioFile,
                   status := .pending, progress := 0, transcript := none,
                   error := none, createdAt := 0, completedAt := none,
                   groupId := some "g1" }],
        groups := [{ id := "g1", name := "A", description := none, createdAt := 0,
                     color := "#3B82F6", jobIds := ["j1"] },
                   { id := "g2", name := "B", description := none, createdAt := 0,
                     color := "#10B981", jobIds := [] }] }).jobs
      = [{ id := "j1",
           audioFile := sampleAudioFile,
           status := .pending, progress := 0, transcript := none,
           error := none, createdAt := 0, completedAt := none,
           groupId := some "g1" }]
    ∧ ({ id := "g2", name := "B", description := none, createdAt := 0,
         color := "#10B981", jobIds := [] } : TranscriptionGroup)
        ∈ (deleteGroupApp "g1"
            { jobs := [{ id := "j1",
                         audioFile := sampleAudioFile,
                         status := .pending, progress := 0, transcript := none,
                         error := none, createdAt := 0, completedAt := none,
                         groupId := some "g1" }],
              groups := [{ id := "g1", name := "A", description := none, createdAt := 0,
                           color := "#3B82F6", jobIds := ["j1"] },
                         { id := "g2", name := "B", description := none, createdAt := 0,
                           color := "#10B981", jobIds := [] }] }).groups :=
  ⟨(deleteGroup_frame "g1" _).1,
   (deleteGroup_frame "g1" _).2.2 _ (List.mem_cons.mpr (.inr (List.mem_cons_self _ _)))
     (by decide)⟩

/-- C9: `addJobToGroup(g, j)` where no existing group has id `g` behaves
exactly like `removeJobFromGroup(j)`: it strips `j` everywhere, creates no
group, and does not fail. -/
theorem addJobToGroup_unknown_group (g jobId : String) (groups : List TranscriptionGroup)
    (h : ∀ gr ∈ groups, gr.id ≠ g) :
    addJobToGroup g jobId groups = removeJobFromGroup jobId groups := by
  unfold addJobToGroup removeJobFromGroup
  apply List.map_congr_left
  intro gr hgr
  rw [if_neg (h gr hgr)]

/-- C9 witness: adding to an id that matches no group. -/
theorem addJobToGroup_unknown_group_witness :
    addJobToGroup "nope" "j"
      [{ id := "g1", name := "A", description := none, createdAt := 0,
         color := "#3B82F6", jobIds := ["j", "k"] }]
      = removeJobFromGroup "j"
      [{ id := "g1", name := "A", description := none, createdAt := 0,
         color := "#3B82F6", jobIds := ["j", "k"] }] :=
  addJobToGroup_unknown_group "nope" "j" _ (by decide)

/-- C3 counterexample: `createGroup("")` (a name that trims to empty) does
not reject — the registry-level operation appends a group record anyway. -/
theorem createGroup_empty_name_not_rejected :
    (createGroup "" none "group_1" 0 []).2 ≠ ([] : List TranscriptionGroup)
    ∧ jsTrim "" = "" := by
  exact ⟨by decide, by decide⟩

/-- C3 amended: the registry-level `createGroup` never rejects — for every
name (even one trimming to empty) it appends exactly one new group and
returns it; the empty-name guard lives in the UI caller
(`GroupCreationModal.handleCreate`), which invokes creation iff the trimmed
name is non-empty. -/
theorem createGroup_total_ui_guard (name groupDescription newId : String)
    (description : Option String) (now : Nat) (groups : List TranscriptionGroup) :
    (createGroup name description newId now groups).2
      = groups ++ [(createGroup name description newId now groups).1]
    ∧ (handleCreate name groupDescription newId now groups = none ↔ jsTrim name = "") := by
  refine ⟨rfl, ?_⟩
  unfold handleCreate
  by_cases h : jsTrim name = "" <;> simp [h]

/-- Helper: `createGroups` only ever appends to the registry it is given. -/
theorem createGroups_appends (now : Nat) :
    ∀ (reqs : List (String × String)) (groups : List TranscriptionGroup),
      ∃ tl, createGroups reqs now groups = groups ++ tl := by
  intro reqs
  induction reqs with
  | nil => exact fun groups => ⟨[], by simp [createGroups]⟩
  | cons r rs ih =>
    intro groups
    have hc : (createGroup r.1 none r.2 now groups).2
        = groups ++ [(createGroup r.1 none r.2 now groups).1] := rfl
    obtain ⟨tl, htl⟩ := ih (groups ++ [(createGroup r.1 none r.2 now groups).1])
    refine ⟨[(createGroup r.1 none r.2 now groups).1] ++ tl, ?_⟩
    simp only [createGroups, List.foldl_cons] at htl ⊢
    rw [hc, htl, List.append_assoc]

/-- Helper: `createGroups` adds one record per request. -/
theorem createGroups_length (now : Nat) :
    ∀ (reqs : List (String × String)) (groups : List TranscriptionGroup),
      (createGroups reqs now groups).length = groups.length + reqs.length := by
  intro reqs
  induction reqs with
  | nil => exact fun groups => rfl
  | cons r rs ih =>
    intro groups
    simp only [createGroups, List.foldl_cons] at ih ⊢
    rw [ih]
    simp [createGroup]
    omega

/-- Helper: the `k`-th group created on top of a registry of `n` groups
receives palette color `(n + k) % 8`. -/
theorem createGroups_color (now : Nat) :
    ∀ (reqs : List (String × String)) (groups : List TranscriptionGroup) (k : Nat),
      k < reqs.length →
      ((createGroups reqs now groups).getD (groups.length + k) dummyGroup).color
        = GROUP_COLORS.getD ((groups.length + k) % 8) "" := by
  intro reqs
  induction reqs with
  | nil => intro groups k hk; simp at hk
  | cons r rs ih =>
    intro groups k hk
    simp only [createGroups, List.foldl_cons] at ih ⊢
    have hc : (createGroup r.1 none r.2 now groups).2
        = groups ++ [(createGroup r.1 none r.2 now groups).1] := rfl
    match k with
    | 0 =>
      obtain ⟨tl, htl⟩ := createGroups_appends now rs
        (groups ++ [(createGroup r.1 none r.2 now groups).1])
      simp only [createGroups] at htl
      rw [hc, htl, List.append_assoc,
        List.getD_append_right _ _ _ _ (Nat.le_add_right _ _)]
      simp [createGroup, GROUP_COLORS]
    | k + 1 =>
      have hlen : (groups ++ [(createGroup r.1 none r.2 now groups).1]).length
          = groups.length + 1 := by simp
      have hrec := ih (groups ++ [(createGroup r.1 none r.2 now groups).1]) k
        (by simpa using Nat.lt_of_succ_lt_succ hk)
      rw [hlen] at hrec
      have harith : groups.length + (k + 1) = groups.length + 1 + k := by omega
      rw [hc, harith]
      exact hrec

/-- C8: a creation on a registry of `n` groups is colored with palette index
`n % 8`, and over any run of successive creations the `k`-th new group gets
palette index `(n + k) % 8` — colors cycle deterministically by creation
order. -/
theorem createGroup_color_cycles (name : String) (description : Option String)
    (newId : String) (now : Nat) (groups : List TranscriptionGroup)
    (reqs : List (String × String)) (k : Nat) (hk : k < reqs.length) :
    (createGroup name description newId now groups).1.color
      = GROUP_COLORS.getD (groups.length % 8) ""
    ∧ (createGroups reqs now groups).length = groups.length + reqs.length
    ∧ ((createGroups reqs now groups).getD (groups.length + k) dummyGroup).color
      = GROUP_COLORS.getD ((groups.length + k) % 8) "" :=
  ⟨by simp [createGroup, GROUP_COLORS], createGroups_length now reqs groups,
   createGroups_color now reqs groups k hk⟩

/-- C8 witness: two creations on an empty registry; the second (`k = 1`)
gets palette index `1 % 8`. -/
theorem createGroup_color_cycles_witness :
    (createGroup "A" none "g0" 0 []).1.color = GROUP_COLORS.getD (0 % 8) ""
    ∧ (createGroups [("A", "g1"), ("B", "g2")] 0 []).length = 0 + 2
    ∧ ((createGroups [("A", "g1"), ("B", "g2")] 0 []).getD (0 + 1) dummyGroup).color
      = GROUP_COLORS.getD ((0 + 1) % 8) "" := by
  have := createGroup_color_cycles "A" none "g0" 0 []
    [("A", "g1"), ("B", "g2")] 1 (by decide)
  simpa using this

/-- Helper: one ingestion run, with the counter generalized — the accepted
records are exactly the inputs passing `isAudioFile`, in order, carrying the
(possibly absent) derived duration; the counter advances by the number of
accepted records and the assigned ids are the consecutive counter values. -/
theorem processFiles_run (getDur : RawFile → Option Nat) (mkUrl : RawFile → String) :
    ∀ (files : List RawFile) (ctr : Nat),
      (processFiles getDur mkUrl files ctr).1.map
          (fun a => (a.file, a.name, a.size, a.duration, a.url))
        = (files.filter isAudioFile).map
          (fun f => (f, f.name, f.size, getDur f, some (mkUrl f)))
      ∧ (processFiles getDur mkUrl files ctr).2
          = ctr + (files.filter isAudioFile).length
      ∧ (processFiles getDur mkUrl files ctr).1.map (fun a => a.id)
          = List.range' ctr (files.filter isAudioFile).length := by
  intro files
  induction files with
  | nil =>
    intro ctr
    exact ⟨rfl, by simp [processFiles], by simp [processFiles]⟩
  | cons f rest ih =>
    intro ctr
    by_cases hf : isAudioFile f
    · obtain ⟨ih1, ih2, ih3⟩ := ih (ctr + 1)
      cases hgd : getDur f with
      | some d =>
        refine ⟨?_, ?_, ?_⟩
        · simp [processFiles, hf, hgd, ih1]
        · simp [processFiles, hf, hgd, ih2]
          omega
        · simp [processFiles, hf, hgd, ih3, List.range'_succ]
      | none =>
        refine ⟨?_, ?_, ?_⟩
        · simp [processFiles, hf, hgd, ih1]
        · simp [processFiles, hf, hgd, ih2]
          omega
        · simp [processFiles, hf, hgd, ih3, List.range'_succ]
    · obtain ⟨ih1, ih2, ih3⟩ := ih ctr
      exact ⟨by simp [processFiles, hf, ih1], by simp [processFiles, hf, ih2],
        by simp [processFiles, hf, ih3]⟩

/-- C5: ingestion produces exactly one AudioFile per input passing the audio
type check (in order, with the derived duration when the derivation
succeeds and none when it fails, never an error), drops failing inputs
silently, and the identifiers produced across two successive calls (the
second starting from the counter the first returned) are pairwise
distinct. -/
theorem processFiles_ingestion_spec (getDur getDur2 : RawFile → Option Nat)
    (mkUrl mkUrl2 : RawFile → String) (files files2 : List RawFile) (ctr : Nat) :
    (processFiles getDur mkUrl files ctr).1.map
        (fun a => (a.file, a.name, a.size, a.duration, a.url))
      = (files.filter isAudioFile).map
        (fun f => (f, f.name, f.size, getDur f, some (mkUrl f)))
    ∧ (processFiles getDur mkUrl files ctr).1.length
        = (files.filter isAudioFile).length
    ∧ (((processFiles getDur mkUrl files ctr).1
        ++ (processFiles getDur2 mkUrl2 files2
              (processFiles getDur mkUrl files ctr).2).1).map
          (fun a => a.id)).Nodup := by
  obtain ⟨h1, h2, h3⟩ := processFiles_run getDur mkUrl files ctr
  obtain ⟨_, _, h3b⟩ := processFiles_run getDur2 mkUrl2 files2
    (processFiles getDur mkUrl files ctr).2
  refine ⟨h1, ?_, ?_⟩
  · have := congrArg List.length h1
    simpa using this
  · rw [List.map_append, h3, h3b, h2, List.nodup_append]
    refine ⟨List.nodup_range' _ _, List.nodup_range' _ _, ?_⟩
    intro a ha hb
    rw [List.mem_range'_1] at ha hb
    omega

/-- Helper: strengthened lifecycle invariant for a job's registry record —
the completion timestamp is set exactly in status `completed`, and a
completed record has progress 100 and a transcript. -/
theorem jobReach_inv (newId : String) (audioFile : AudioFile) (now : Nat)
    (gid0 : Option String) (j : TranscriptionJob)
    (h : JobReach (mkJob newId audioFile now gid0) j) :
    (j.status = .completed ↔ j.completedAt.isSome)
    ∧ (j.status = .completed → j.progress = 100 ∧ j.transcript.isSome) := by
  induction h with
  | created => simp [mkJob]
  | polled j t hmem =>
    simp only [serviceTrace, List.mem_append, List.mem_map, List.mem_range,
      List.mem_singleton] at hmem
    rcases hmem with ⟨k, hk, rfl⟩ | rfl
    · simp [serviceStart, mkJob]
    · simp [serviceComplete, serviceStart, mkJob]
  | failed msg => simp [failJob, mkJob]
  | edited j text hj ih =>
    refine ⟨by simpa using ih.1, ?_⟩
    intro hc
    simp only at hc
    simpa using (ih.2 hc).1
  | regrouped j gid hj ih =>
    refine ⟨by simpa using ih.1, ?_⟩
    intro hc
    simp only at hc
    simpa using ih.2 hc

/-- C2: every reachable registry record of a job satisfies
status = completed ⇔ (transcript set ∧ progress = 100 ∧ completion time
set); the biconditional survives polling copies of provider records, the
error fallback, and unconditional `updateTranscript` edits in any status. -/
theorem completed_iff_transcript_progress_completedAt (newId : String)
    (audioFile : AudioFile) (now : Nat) (gid0 : Option String)
    (j : TranscriptionJob) (h : JobReach (mkJob newId audioFile now gid0) j) :
    j.status = .completed ↔
      (j.transcript.isSome ∧ j.progress = 100 ∧ j.completedAt.isSome) := by
  obtain ⟨h1, h2⟩ := jobReach_inv newId audioFile now gid0 j h
  constructor
  · intro hc
    exact ⟨(h2 hc).2, (h2 hc).1, h1.mp hc⟩
  · intro hr
    exact h1.mpr hr.2.2

/-- C2 witness: the provider's completion record for a concrete job. -/
theorem completed_iff_transcript_progress_completedAt_witness :
    (serviceComplete (serviceStart (mkJob "j1" sampleAudioFile 0 none)) 5).status
        = .completed
      ↔ ((serviceComplete (serviceStart (mkJob "j1" sampleAudioFile 0 none)) 5).transcript.isSome
        ∧ (serviceComplete (serviceStart (mkJob "j1" sampleAudioFile 0 none)) 5).progress = 100
        ∧ (serviceComplete (serviceStart (mkJob "j1" sampleAudioFile 0 none)) 5).completedAt.isSome) :=
  completed_iff_transcript_progress_completedAt "j1" sampleAudioFile 0 none _
    (JobReach.polled _ 5 (by simp [serviceTrace]))

/-- Helper: an enumerated filterMap that keeps exactly the entries with a
transcript produces one result per transcript-bearing job, for any
enumeration start. -/
theorem length_filterMap_enumFrom_transcript {β : Type}
    (g : Nat → TranscriptionJob → String → β) :
    ∀ (jobs : List TranscriptionJob) (n : Nat),
      ((jobs.enumFrom n).filterMap (fun p =>
          match p.2.transcript with
          | some t => some (g p.1 p.2 t)
          | none => none)).length
        = (jobs.filter (fun j => j.transcript.isSome)).length := by
  intro jobs
  induction jobs with
  | nil => intro n; rfl
  | cons j rest ih =>
    intro n
    cases ht : j.transcript with
    | some t =>
      simp [List.enumFrom_cons, List.filterMap_cons, ht, List.filter_cons, ih]
    | none =>
      simp [List.enumFrom_cons, List.filterMap_cons, ht, List.filter_cons, ih]

/-- C4 counterexample: with `separateFiles = true` but `format = "zip"`, two
transcript-bearing jobs yield a single combined payload, not one payload per
job — the `zip` branch takes precedence over `separateFiles`. -/
theorem separateFiles_zip_single_payload :
    (downloadBatchTranscripts [sampleJobDone, sampleJobDone2]
        { format := "zip", includeMetadata := false, separateFiles := true,
          groupName := none } "T" "D").length = 1
    ∧ ([sampleJobDone, sampleJobDone2].filter
        (fun j => j.transcript.isSome)).length = 2 :=
  ⟨rfl, rfl⟩

/-- C4 amended: for every options record with `separateFiles = true` whose
format is not `zip`, batch export yields exactly one payload per
transcript-bearing job (zero for an empty list; jobs lacking a transcript
are skipped without producing a payload or an error). -/
theorem separateFiles_payload_count (jobs : List TranscriptionJob)
    (options : BatchExportOptions) (timestamp dateStr : String)
    (hsep : options.separateFiles = true) (hfmt : options.format ≠ "zip") :
    (downloadBatchTranscripts jobs options timestamp dateStr).length
      = (jobs.filter (fun j => j.transcript.isSome)).length := by
  unfold downloadBatchTranscripts
  by_cases hnil : jobs.length = 0
  · rw [if_pos hnil]
    have hj : jobs = [] := List.length_eq_zero.mp hnil
    subst hj
    rfl
  · rw [if_neg hnil]
    simp only [hsep, hfmt, if_neg, if_true]
    have := length_filterMap_enumFrom_transcript
      (fun i jb t => downloadTextFile t
        (effectiveGroupName options.groupName ++ "_" ++ toString (i + 1) ++ "_"
          ++ generateTranscriptFilename jb.audioFile.name timestamp)) jobs 0
    simpa [List.enum, hfmt] using this

/-- C4 witness: two jobs, one lacking a transcript, exported with
`separateFiles = true` and a non-zip format. -/
theorem separateFiles_payload_count_witness :
    (downloadBatchTranscripts [sampleJobDone, sampleJobPending]
        { format := "txt", includeMetadata := false, separateFiles := true,
          groupName := none } "T" "D").length
      = ([sampleJobDone, sampleJobPending].filter
          (fun j => j.transcript.isSome)).length :=
  separateFiles_payload_count [sampleJobDone, sampleJobPending]
    { format := "txt", includeMetadata := false, separateFiles := true,
      groupName := none } "T" "D" rfl (by decide)

/-- C10: in combined (non-separate-files, non-zip) mode with metadata, the
single payload's header interpolates the FULL input length as the file
count, while the body holds one entry per transcript-bearing job only. -/
theorem combined_header_counts_all_jobs (jobs : List TranscriptionJob)
    (options : BatchExportOptions) (timestamp dateStr gn : String)
    (hne : jobs ≠ []) (hmeta : options.includeMetadata = true)
    (hsep : options.separateFiles = false) (hfmt : options.format ≠ "zip") :
    downloadBatchTranscripts jobs options timestamp dateStr
      = [downloadCombinedTranscripts jobs options timestamp
          (effectiveGroupName options.groupName) dateStr]
    ∧ (downloadCombinedTranscripts jobs options timestamp gn dateStr).content
        = combinedHeader gn dateStr jobs.length
          ++ String.join (combinedEntries jobs options)
    ∧ (combinedEntries jobs options).length
        = (jobs.filter (fun j => j.transcript.isSome)).length := by
  refine ⟨?_, ?_, ?_⟩
  · unfold downloadBatchTranscripts
    rw [if_neg (fun h => hne (List.length_eq_zero.mp h))]
    simp [hfmt, hsep]
  · simp [downloadCombinedTranscripts, hmeta, downloadTextFile]
  · have := length_filterMap_enumFrom_transcript
      (fun i jb t => combinedEntry options i jb t) jobs 0
    simpa [combinedEntries, List.enum] using this

/-- C10 witness: two jobs, one lacking a transcript, in combined metadata
mode — the header count is the full list length (2) while only one entry
survives. -/
theorem combined_header_counts_all_jobs_witness :
    downloadBatchTranscripts [sampleJobDone, sampleJobPending]
        { format := "txt", includeMetadata := true, separateFiles := false,
          groupName := some "g" } "T" "D"
      = [downloadCombinedTranscripts [sampleJobDone, sampleJobPending]
          { format := "txt", includeMetadata := true, separateFiles := false,
            groupName := some "g" } "T" (effectiveGroupName (some "g")) "D"]
    ∧ (downloadCombinedTranscripts [sampleJobDone, sampleJobPending]
          { format := "txt", includeMetadata := true, separateFiles := false,
            groupName := some "g" } "T" "g" "D").content
        = combinedHeader "g" "D" ([sampleJobDone, sampleJobPending].length)
          ++ String.join (combinedEntries [sampleJobDone, sampleJobPending]
              { format := "txt", includeMetadata := true, separateFiles := false,
                groupName := some "g" })
    ∧ (combinedEntries [sampleJobDone, sampleJobPending]
          { format := "txt", includeMetadata := true, separateFiles := false,
            groupName := some "g" }).length
        = ([sampleJobDone, sampleJobPending].filter
            (fun j => j.transcript.isSome)).length :=
  combined_header_counts_all_jobs [sampleJobDone, sampleJobPending]
    { format := "txt", includeMetadata := true, separateFiles := false,
      groupName := some "g" } "T" "D" "g" (by decide) rfl rfl (by decide)

end AT
